import Mathlib

/-!
Verification development for the ESIMarket tool's HTTP fetch / retry /
rate-limit / caching engine (`src/cache.py`, `src/esi_client.py`,
`src/rate_limiter.py`).

The Python code is shallowly embedded:
* JSON values are the inductive `Json`; Python `dict`s appearing as JSON
  objects are association lists (insertion ordered, as in CPython).
* The in-memory cache `HistoryCache._entries` is an association list from a
  type id (`Int`) to a `CacheEntry`.
* The cache file is a `FileContent`: missing, unparseable text, or a parsed
  JSON value.  Atomic-rename mechanics of `save` are not claim-relevant and
  are abstracted to "the serialized JSON value that reaches the file".
* HTTP traffic is a script (`List` of events), one event per issued request:
  each loop iteration of the fetch functions performs exactly one request,
  so the fetch loops are structural recursion over the script.
* Python exceptions that escape a function are `Except.error (e : PyErr)`;
  counters are `Nat`, the rate limiter's float arithmetic is modelled by
  exact rationals.  Wall-clock fields (`elapsed_seconds`) and log output are
  omitted; `time.sleep`/`asyncio.sleep` are no-ops for the state we model.
-/

/-- A JSON value (the result of `json.loads` / argument of `json.dump`).
Object fields are kept as an insertion-ordered association list, which is
how CPython dicts behave. -/
inductive Json where
  | null : Json
  | bool (b : Bool) : Json
  | num (n : Int) : Json
  | str (s : String) : Json
  | arr (elems : List Json) : Json
  | obj (fields : List (String × Json)) : Json

/-- Python truthiness (`if x:`) for the values a JSON document can hold. -/
def truthy : Json → Bool
  | .null => false
  | .bool b => b
  | .num n => n != 0
  | .str s => s != ""
  | .arr l => !l.isEmpty
  | .obj l => !l.isEmpty

/-- Python exceptions that the modelled code can raise or catch. -/
inductive PyErr where
  | valueError : PyErr
  | typeError : PyErr
  | attributeError : PyErr
deriving DecidableEq, Repr

/-- `len(x)` for JSON-representable values: defined for sequences, strings
and mappings, a `TypeError` (modelled as `none`) otherwise. -/
def pyLen : Json → Option Nat
  | .arr l => some l.length
  | .str s => some s.length
  | .obj l => some l.length
  | _ => none

/-- `list.extend(x)`: the list of elements Python iteration over `x` yields
(a list yields its elements, a string its one-character strings, a dict its
keys); non-iterable values raise `TypeError`. -/
def pyExtendList : Json → Except PyErr (List Json)
  | .arr l => .ok l
  | .str s => .ok (s.data.map fun ch => Json.str (String.mk [ch]))
  | .obj fs => .ok (fs.map fun p => Json.str p.1)
  | _ => .error .typeError

/-- Association-list lookup (`d[k]` / `d.get(k)` on a Python dict). -/
def alookup {α β : Type} [DecidableEq α] (k : α) : List (α × β) → Option β
  | [] => none
  | (k', v) :: rest => if k' = k then some v else alookup k rest

/-- Association-list update (`d[k] = v` on a Python dict): an existing key
keeps its position, a new key is appended at the end. -/
def upsert {α β : Type} [DecidableEq α] (k : α) (v : β) : List (α × β) → List (α × β)
  | [] => [(k, v)]
  | (k', v') :: rest => if k' = k then (k, v) :: rest else (k', v') :: upsert k v rest

theorem alookup_upsert_self {α β : Type} [DecidableEq α] (k : α) (v : β)
    (m : List (α × β)) : alookup k (upsert k v m) = some v := by
  induction m with
  | nil => simp [upsert, alookup]
  | cons p rest ih =>
    obtain ⟨k', v'⟩ := p
    by_cases h : k' = k
    · simp [upsert, alookup, h]
    · simp [upsert, alookup, h, ih]

theorem alookup_upsert_ne {α β : Type} [DecidableEq α] {k k' : α} (v : β)
    (m : List (α × β)) (h : k' ≠ k) :
    alookup k' (upsert k v m) = alookup k' m := by
  have hk : k ≠ k' := fun hh => h hh.symm
  induction m with
  | nil => simp [upsert, alookup, hk]
  | cons p rest ih =>
    obtain ⟨a, b⟩ := p
    by_cases ha : a = k
    · subst ha
      simp [upsert, alookup, hk]
    · simp [upsert, alookup, ha, ih]

theorem upsert_of_alookup_none {α β : Type} [DecidableEq α] {k : α} (v : β)
    {m : List (α × β)} (h : alookup k m = none) : upsert k v m = m ++ [(k, v)] := by
  induction m with
  | nil => simp [upsert]
  | cons p rest ih =>
    obtain ⟨a, b⟩ := p
    by_cases ha : a = k
    · simp [alookup, ha] at h
    · simp [alookup, ha] at h
      simp [upsert, ha, ih h]

theorem length_upsert_of_isSome {α β : Type} [DecidableEq α] {k : α} (v : β)
    {m : List (α × β)} (h : (alookup k m).isSome) :
    (upsert k v m).length = m.length := by
  induction m with
  | nil => simp [alookup] at h
  | cons p rest ih =>
    obtain ⟨a, b⟩ := p
    by_cases ha : a = k
    · simp [upsert, ha]
    · simp [alookup, ha] at h
      simp [upsert, ha, ih h]

theorem alookup_upsert_isSome {α β : Type} [DecidableEq α] {k k' : α} (v : β)
    {m : List (α × β)} (h : (alookup k' m).isSome) :
    (alookup k' (upsert k v m)).isSome := by
  by_cases hk : k' = k
  · subst hk; simp [alookup_upsert_self]
  · rw [alookup_upsert_ne _ _ hk]; exact h

/-! ### Decimal strings: Python's `str(i)` and `int(s)`

`save` writes dict keys with `str(type_id)`, `load` reads them back with
`int(key)`.  We model the decimal conversion directly.  (Python's `int()`
additionally strips whitespace and accepts `+`/underscores; those inputs do
not occur in files this program writes and are not modelled.) -/

/-- Little-endian decimal digits of a natural number (`[0]` for zero). -/
def digitsRevN (n : Nat) : List Nat :=
  if h : n < 10 then [n]
  else (n % 10) :: digitsRevN (n / 10)
termination_by n
decreasing_by
  exact Nat.div_lt_self (by omega) (by omega)

/-- The digit character for a value below ten. -/
def digChar : Nat → Char
  | 0 => '0' | 1 => '1' | 2 => '2' | 3 => '3' | 4 => '4'
  | 5 => '5' | 6 => '6' | 7 => '7' | 8 => '8' | _ => '9'

/-- The value of a digit character, `none` for non-digits. -/
def digOf? (c : Char) : Option Nat :=
  if 48 ≤ c.toNat ∧ c.toNat ≤ 57 then some (c.toNat - 48) else none

/-- Value of a little-endian digit list. -/
def ofDigitsRev : List Nat → Nat
  | [] => 0
  | d :: ds => d + 10 * ofDigitsRev ds

/-- Big-endian digit-string parser (the core of `int(s)`). -/
def parseDigitsAux (acc : Nat) : List Char → Option Nat
  | [] => some acc
  | c :: cs =>
    match digOf? c with
    | none => none
    | some d => parseDigitsAux (acc * 10 + d) cs

/-- `str(n)` for a natural number. -/
def pyStrN (n : Nat) : String := String.mk ((digitsRevN n).reverse.map digChar)

/-- `str(i)` for an integer. -/
def pyStrI (i : Int) : String :=
  if i < 0 then String.mk ('-' :: ((digitsRevN (-i).toNat).reverse.map digChar))
  else pyStrN i.toNat

/-- Character-list form of `int(s)`. -/
def pyIntChars? : List Char → Option Int
  | [] => none
  | c :: cs =>
    if c = '-' then
      if cs.isEmpty then none
      else (parseDigitsAux 0 cs).map (fun n => -(n : Int))
    else (parseDigitsAux 0 (c :: cs)).map (fun n => (n : Int))

/-- `int(s)` for a string: `some` the parsed integer, `none` when Python's
`int()` would raise `ValueError`. -/
def pyInt? (s : String) : Option Int := pyIntChars? s.data

theorem digitsRevN_lt_ten (n : Nat) : ∀ d ∈ digitsRevN n, d < 10 := by
  induction n using Nat.strong_induction_on with
  | _ n ih =>
    rw [digitsRevN]
    split
    · rename_i h
      intro d hd
      simp only [List.mem_singleton] at hd
      omega
    · rename_i h
      intro d hd
      simp only [List.mem_cons] at hd
      rcases hd with hd | hd
      · omega
      · exact ih (n / 10) (Nat.div_lt_self (by omega) (by omega)) d hd

theorem ofDigitsRev_digitsRevN (n : Nat) : ofDigitsRev (digitsRevN n) = n := by
  induction n using Nat.strong_induction_on with
  | _ n ih =>
    rw [digitsRevN]
    split
    · simp [ofDigitsRev]
    · rename_i h
      simp only [ofDigitsRev, ih (n / 10) (Nat.div_lt_self (by omega) (by omega))]
      omega

theorem digitsRevN_ne_nil (n : Nat) : digitsRevN n ≠ [] := by
  rw [digitsRevN]
  by_cases h : n < 10 <;> simp [h]

theorem digOf_digChar {d : Nat} (h : d < 10) : digOf? (digChar d) = some d := by
  interval_cases d <;> decide

theorem digChar_ne_minus (d : Nat) : digChar d ≠ '-' := by
  rcases d with _ | _ | _ | _ | _ | _ | _ | _ | _ | d <;> simp [digChar]

theorem parseDigitsAux_append (acc : Nat) (xs ys : List Char) :
    parseDigitsAux acc (xs ++ ys) =
      match parseDigitsAux acc xs with
      | none => none
      | some a => parseDigitsAux a ys := by
  induction xs generalizing acc with
  | nil => simp [parseDigitsAux]
  | cons c cs ih =>
    simp only [List.cons_append, parseDigitsAux]
    match digOf? c with
    | none => simp
    | some d => simp [ih]

theorem parseDigitsAux_rev (l : List Nat) (acc : Nat) (hd : ∀ d ∈ l, d < 10) :
    parseDigitsAux acc (l.reverse.map digChar) =
      some (acc * 10 ^ l.length + ofDigitsRev l) := by
  induction l generalizing acc with
  | nil => simp [parseDigitsAux, ofDigitsRev]
  | cons d ds ih =>
    have hds : ∀ x ∈ ds, x < 10 := fun x hx => hd x (List.mem_cons_of_mem _ hx)
    have hdd : d < 10 := hd d (List.mem_cons_self _ _)
    simp only [List.reverse_cons, List.map_append, List.map_cons, List.map_nil]
    rw [parseDigitsAux_append, ih acc hds]
    simp [parseDigitsAux, digOf_digChar hdd, ofDigitsRev]
    ring

theorem parse_pyStrN (n : Nat) : parseDigitsAux 0 ((digitsRevN n).reverse.map digChar) = some n := by
  rw [parseDigitsAux_rev _ _ (digitsRevN_lt_ten n)]
  simp [ofDigitsRev_digitsRevN]

/-- Round trip: `int(str(i)) == i`. -/
theorem pyInt_pyStrI (i : Int) : pyInt? (pyStrI i) = some i := by
  by_cases h : i < 0
  · have hne := digitsRevN_ne_nil (-i).toNat
    rw [pyStrI, if_pos h]
    show pyIntChars? ('-' :: (digitsRevN (-i).toNat).reverse.map digChar) = some i
    cases hrev : (digitsRevN (-i).toNat).reverse.map digChar with
    | nil =>
      exfalso
      have hlen := congrArg List.length hrev
      simp at hlen
      exact hne hlen
    | cons c cs =>
      have hparse := parse_pyStrN (-i).toNat
      rw [hrev] at hparse
      simp [pyIntChars?, hparse]
      omega
  · have hne := digitsRevN_ne_nil i.toNat
    rw [pyStrI, if_neg h]
    show pyIntChars? ((digitsRevN i.toNat).reverse.map digChar) = some i
    cases hrev : (digitsRevN i.toNat).reverse.map digChar with
    | nil =>
      exfalso
      have hlen := congrArg List.length hrev
      simp at hlen
      exact hne hlen
    | cons c cs =>
      have hcdig : c ≠ '-' := by
        have hm : c ∈ (digitsRevN i.toNat).reverse.map digChar := by
          rw [hrev]; exact List.mem_cons_self _ _
        simp only [List.mem_map] at hm
        obtain ⟨d, _, hdc⟩ := hm
        rw [← hdc]
        exact digChar_ne_minus d
      have hparse := parse_pyStrN i.toNat
      rw [hrev] at hparse
      simp [pyIntChars?, hcdig, hparse]
      omega

/-! ### The conditional cache (`src/cache.py`)

`CacheEntry` fields hold arbitrary JSON values, exactly as the Python code
does: `load` copies whatever the file's JSON object holds into the entry
without type checks, and `put` stores whatever its caller passes. -/

/-- `CacheEntry` from `src/cache.py` (defaults `etag=""`, `last_modified=""`,
`data=[]`). -/
structure CacheEntry where
  etag : Json := Json.str ""
  last_modified : Json := Json.str ""
  data : Json := Json.arr []

/-- The in-memory store `HistoryCache._entries`: a dict keyed by `type_id`. -/
abbrev CMap : Type := List (Int × CacheEntry)

/-- What `load` can find at `HistoryCache._path`: no file, a file whose text
is not valid JSON, or a file parsing to a JSON value. -/
inductive FileContent where
  | missing : FileContent
  | invalid : FileContent
  | json (j : Json) : FileContent

namespace HistoryCache

/-- `entry_count`: `len(self._entries)`. -/
def entry_count (c : CMap) : Nat := List.length c

/-- `get`: `self._entries.get(type_id)`. -/
def get (c : CMap) (type_id : Int) : Option CacheEntry := alookup type_id c

/-- `put`: unconditional upsert of an entry. -/
def put (type_id : Int) (etag last_modified data : Json) (c : CMap) : CMap :=
  upsert type_id ⟨etag, last_modified, data⟩ c

/-- `has_data`: entry exists and `len(entry.data) > 0`.  `len` of a
non-sized value raises `TypeError` (`Except.error`). -/
def has_data (c : CMap) (type_id : Int) : Except PyErr Bool :=
  match alookup type_id c with
  | none => .ok false
  | some e =>
    match pyLen e.data with
    | none => .error .typeError
    | some n => .ok (decide (0 < n))

/-- `get_conditional_headers`: empty when there is no entry or the entry's
`data` is falsy (the degraded-entry safety valve); otherwise the
`If-None-Match` header when `entry.etag` is truthy followed by the
`If-Modified-Since` header when `entry.last_modified` is truthy. -/
def get_conditional_headers (c : CMap) (type_id : Int) : List (String × Json) :=
  match alookup type_id c with
  | none => []
  | some e =>
    if truthy e.data then
      (if truthy e.etag then [("If-None-Match", e.etag)] else []) ++
        (if truthy e.last_modified then [("If-Modified-Since", e.last_modified)] else [])
    else []

/-- The entry `load` builds from one parsed JSON object value:
`CacheEntry(etag=value.get("etag", ""), ...)`. -/
def entryOfFields (vf : List (String × Json)) : CacheEntry :=
  { etag := (alookup "etag" vf).getD (Json.str "")
    last_modified := (alookup "last_modified" vf).getD (Json.str "")
    data := (alookup "data" vf).getD (Json.arr []) }

/-- The `for key, value in raw.items()` loop of `load`: values that are not
dicts are skipped; a key `int()` cannot parse raises `ValueError`, which the
surrounding `try` catches by clearing the whole store. -/
def loadFields : CMap → List (String × Json) → CMap × Option PyErr
  | entries, [] => (entries, none)
  | entries, (k, v) :: rest =>
    match v with
    | .obj vf =>
      match pyInt? k with
      | none => ([], none)
      | some kid => loadFields (upsert kid (entryOfFields vf) entries) rest
    | _ => loadFields entries rest

/-- `load`: missing file is a no-op; text that is not JSON is caught
(`json.JSONDecodeError`) and clears the store; a parsed JSON value that is
not an object raises `AttributeError` at `raw.items()`, which no handler
catches (`AttributeError` is not in the `except` tuple) — the store is left
as it was and the exception propagates (`some` error). -/
def load (entries : CMap) (fc : FileContent) : CMap × Option PyErr :=
  match fc with
  | .missing => (entries, none)
  | .invalid => ([], none)
  | .json j =>
    match j with
    | .obj fields => loadFields entries fields
    | _ => (entries, some .attributeError)

/-- `save`: the JSON value written to the cache file — an object mapping
`str(type_id)` to the entry's three fields. -/
def save (c : CMap) : FileContent :=
  .json (.obj (c.map fun p =>
    (pyStrI p.1, Json.obj [("etag", p.2.etag), ("last_modified", p.2.last_modified),
      ("data", p.2.data)])))

end HistoryCache

/-- The `(int(key), CacheEntry(...))` pairs `load` would store for a field
list, `none` when some dict-valued field has an unparsable key (making
`load` clear the store). -/
def goodPairs : List (String × Json) → Option (List (Int × CacheEntry))
  | [] => some []
  | (k, v) :: rest =>
    match v with
    | .obj vf =>
      match pyInt? k with
      | none => none
      | some kid => (goodPairs rest).map (fun ps => (kid, HistoryCache.entryOfFields vf) :: ps)
    | _ => goodPairs rest

theorem loadFields_of_goodPairs_none {fields : List (String × Json)}
    (h : goodPairs fields = none) (entries : CMap) :
    HistoryCache.loadFields entries fields = ([], none) := by
  induction fields generalizing entries with
  | nil => simp [goodPairs] at h
  | cons p rest ih =>
    obtain ⟨k, v⟩ := p
    match v with
    | .obj vf =>
      simp only [goodPairs] at h
      match hk : pyInt? k with
      | none => simp [HistoryCache.loadFields, hk]
      | some kid =>
        rw [hk] at h
        match hg : goodPairs rest with
        | some ps' => rw [hg] at h; simp at h
        | none => simp [HistoryCache.loadFields, hk, ih hg]
    | .null => simp only [goodPairs] at h; simp [HistoryCache.loadFields, ih h]
    | .bool b => simp only [goodPairs] at h; simp [HistoryCache.loadFields, ih h]
    | .num n => simp only [goodPairs] at h; simp [HistoryCache.loadFields, ih h]
    | .str s => simp only [goodPairs] at h; simp [HistoryCache.loadFields, ih h]
    | .arr l => simp only [goodPairs] at h; simp [HistoryCache.loadFields, ih h]

theorem loadFields_of_goodPairs_some {fields : List (String × Json)}
    {ps : List (Int × CacheEntry)} (h : goodPairs fields = some ps) (entries : CMap) :
    HistoryCache.loadFields entries fields =
      (ps.foldl (fun m q => upsert q.1 q.2 m) entries, none) := by
  induction fields generalizing entries ps with
  | nil =>
    simp only [goodPairs, Option.some.injEq] at h
    subst h
    simp [HistoryCache.loadFields]
  | cons p rest ih =>
    obtain ⟨k, v⟩ := p
    match v with
    | .obj vf =>
      simp only [goodPairs] at h
      match hk : pyInt? k with
      | none => rw [hk] at h; simp at h
      | some kid =>
        rw [hk] at h
        match hg : goodPairs rest with
        | none => rw [hg] at h; simp at h
        | some ps' =>
          rw [hg] at h
          simp at h
          subst h
          simp [HistoryCache.loadFields, hk, ih hg, List.foldl]
    | .null => simp only [goodPairs] at h; simp [HistoryCache.loadFields, ih h]
    | .bool b => simp only [goodPairs] at h; simp [HistoryCache.loadFields, ih h]
    | .num n => simp only [goodPairs] at h; simp [HistoryCache.loadFields, ih h]
    | .str s => simp only [goodPairs] at h; simp [HistoryCache.loadFields, ih h]
    | .arr l => simp only [goodPairs] at h; simp [HistoryCache.loadFields, ih h]

/-! ### The fetch engine (`src/esi_client.py`)

Each iteration of a fetch loop issues exactly one HTTP request, so a run is
driven by a script: a list with one event per request, in order.  A `.resp`
event carries the parsed pieces of the response the engine reads: status,
the optional `X-Pages` header, the optional error-budget headers, the
validator headers (absent encoded as `""`, as `headers.get(..., '')`
produces), and the JSON body (`none` when `response.json()` raises a decode
error).  If the loop would issue a request but the script is exhausted, the
run stops and reports the state reached.  Sleeps and the `Progress` /
`on_item` display hooks have no modelled effect; the rate limiter is
acquired once per event by construction. -/

/-- `FetchResult` from `src/esi_client.py`.  `elapsed_seconds` (wall-clock)
is not modelled. -/
structure FetchResult where
  data : List Json := []
  pages_fetched : Nat := 0
  error_count : Nat := 0
  total_retries : Nat := 0
  failed_items : List Int := []
  cache_hits : Nat := 0

/-- One scripted response for `fetch_market_orders`. -/
structure OrdEv where
  status : Nat
  xPages : Option Nat := none
  elr : Option Int := none
  body : Option Json := none

/-- The `while page <= total_pages` loop of `fetch_market_orders`.
Returns the result together with the unconsumed script. -/
def runOrders (mr : Nat) : List OrdEv → Nat → Nat → Nat → FetchResult →
    Except PyErr (FetchResult × List OrdEv)
  | evs, page, totalPages, retries, res =>
    if totalPages < page then .ok (res, evs)
    else
      match evs with
      | [] => .ok (res, [])
      | e :: rest =>
        let totalPages' := e.xPages.getD totalPages
        if e.elr.getD 0 = 0 then .ok (res, rest)
        else if e.status ≠ 200 then
          let res' := { res with error_count := res.error_count + 1 }
          if retries < mr then runOrders mr rest page totalPages' (retries + 1) res'
          else .ok (res', rest)
        else
          let res' := { res with total_retries := res.total_retries + retries }
          match e.body with
          | none =>
            runOrders mr rest page totalPages' 0
              { res' with error_count := res'.error_count + 1 }
          | some orders =>
            if truthy orders then
              match pyExtendList orders with
              | .error err => .error err
              | .ok l =>
                runOrders mr rest (page + 1) totalPages' 0
                  { res' with data := res'.data ++ l,
                              pages_fetched := res'.pages_fetched + 1 }
            else .ok (res', rest)

/-- `fetch_market_orders`: run the page loop from page 1 with an initially
assumed single page and a fresh `FetchResult`. -/
def fetch_market_orders (mr : Nat) (evs : List OrdEv) : Except PyErr FetchResult :=
  (runOrders mr evs 1 1 0 {}).map Prod.fst

/-- One scripted outcome of a `fetch_market_history` request: a response, or
an `asyncio.TimeoutError`. -/
inductive HEv where
  | timeout : HEv
  | resp (status : Nat) (xPages : Option Nat) (elr : Option Int) (elrReset : Option Int)
      (etag lastMod : String) (body : Option Json) : HEv

/-- The three-way branch of the non-success path: server error budget nearly
exhausted → sleep and retry (no local retry consumed); local retries left →
back off and retry; otherwise give up on this key. -/
inductive ErrStep where
  | cont (retries : Nat) : ErrStep
  | giveUp : ErrStep

/-- Classification used by `fetch_market_history` for non-200/304 responses
(lines 273-286 of `src/esi_client.py`). -/
def classifyErr (mr : Nat) (elr : Option Int) (retries : Nat) : ErrStep :=
  match elr with
  | some v =>
    if v < 2 then .cont retries
    else if retries < mr then .cont (retries + 1) else .giveUp
  | none => if retries < mr then .cont (retries + 1) else .giveUp

/-- Stamp each copied record dict with `entry_copy['type_id'] = item`. -/
def stampAll (item : Int) (recs : List (List (String × Json))) : List Json :=
  recs.map fun fs => Json.obj (upsert "type_id" (Json.num item) fs)

/-- Element-wise `dict(entry)` over the decoded list: `some` the field lists
when every element is an object, `none` (an exception) otherwise. -/
def asRecListGo : List Json → Option (List (List (String × Json)))
  | [] => some []
  | Json.obj fs :: rest => (asRecListGo rest).map (fs :: ·)
  | _ => none

/-- The record dicts of a decoded history body: `dict(entry)` for each
element.  `none` models the `TypeError`/`ValueError` Python raises when an
element is not a mapping (the exotic dict-of-pairs and non-list-iteration
corners are collapsed into the same error). -/
def asRecList : Json → Option (List (List (String × Json)))
  | .arr l => asRecListGo l
  | _ => none

/-- Outcome of the per-key `while page <= max_pages` loop. -/
structure HistOut where
  res : FetchResult
  cache : Option CMap
  retries : Nat
  rest : List HEv

/-- The per-key page loop of `fetch_market_history` (lines 225-325 of
`src/esi_client.py`).  A propagated Python exception is `Except.error`; on
that path the cache state is unobservable to the model's caller. -/
def runHistPages (mr : Nat) (item : Int) : List HEv → Option CMap → Nat → Nat → Bool →
    Nat → FetchResult → Except PyErr HistOut
  | evs, cache, page, maxPages, skipCache, retries, res =>
    if maxPages < page then .ok ⟨res, cache, retries, evs⟩
    else
      match evs with
      | [] => .ok ⟨res, cache, retries, []⟩
      | HEv.timeout :: rest =>
        if retries < mr then
          runHistPages mr item rest cache page maxPages skipCache (retries + 1) res
        else
          .ok ⟨{ res with failed_items := res.failed_items ++ [item] }, cache, retries, rest⟩
      | HEv.resp status xp elr _elrR etag lastMod body :: rest =>
        let maxPages' := xp.getD maxPages
        if status = 304 then
          match cache with
          | some c =>
            match HistoryCache.has_data c item with
            | .error err => .error err
            | .ok true =>
              match HistoryCache.get c item with
              | none => .error .attributeError
              | some entry =>
                match pyExtendList entry.data with
                | .error err => .error err
                | .ok l =>
                  .ok ⟨{ res with data := res.data ++ l,
                                  cache_hits := res.cache_hits + 1,
                                  pages_fetched := res.pages_fetched + 1 },
                       cache, retries, rest⟩
            | .ok false =>
              runHistPages mr item rest cache page maxPages' true retries res
          | none =>
            let res' := { res with error_count := res.error_count + 1 }
            match classifyErr mr elr retries with
            | .cont r' => runHistPages mr item rest cache page maxPages' skipCache r' res'
            | .giveUp =>
              .ok ⟨{ res' with failed_items := res'.failed_items ++ [item] },
                   cache, retries, rest⟩
        else if status ≠ 200 then
          let res' := { res with error_count := res.error_count + 1 }
          match classifyErr mr elr retries with
          | .cont r' => runHistPages mr item rest cache page maxPages' skipCache r' res'
          | .giveUp =>
            .ok ⟨{ res' with failed_items := res'.failed_items ++ [item] },
                 cache, retries, rest⟩
        else
          match body with
          | none => .error .valueError
          | some data =>
            if truthy data then
              match asRecList data with
              | none => .error .typeError
              | some recs =>
                let stamped := stampAll item recs
                let cache' :=
                  match cache with
                  | none => none
                  | some c =>
                    some (HistoryCache.put item (Json.str etag) (Json.str lastMod)
                      (Json.arr stamped) c)
                runHistPages mr item rest cache' (page + 1) maxPages' skipCache 0
                  { res with data := res.data ++ stamped,
                             pages_fetched := res.pages_fetched + 1 }
            else
              let cache' :=
                match cache with
                | none => none
                | some c =>
                  some (HistoryCache.put item (Json.str etag) (Json.str lastMod)
                    (Json.arr []) c)
              runHistPages mr item rest cache' (page + 1) maxPages' skipCache 0
                { res with pages_fetched := res.pages_fetched + 1 }

/-- The `for item in type_ids` loop of `fetch_market_history`: run the page
loop for each key (page 1, assumed single page, conditional headers enabled,
zero retries), then fold the leftover per-key retries into `total_retries`. -/
def runHistItems (mr : Nat) : List Int → List HEv → Option CMap → FetchResult →
    Except PyErr (FetchResult × Option CMap × List HEv)
  | [], evs, cache, res => .ok (res, cache, evs)
  | k :: ks, evs, cache, res =>
    match runHistPages mr k evs cache 1 1 false 0 res with
    | .error err => .error err
    | .ok out =>
      runHistItems mr ks out.rest out.cache
        { out.res with total_retries := out.res.total_retries + out.retries }

/-- `fetch_market_history`: iterate the keys over the script with a fresh
`FetchResult`, returning the result and the final cache. -/
def fetch_market_history (mr : Nat) (cache : Option CMap) (type_ids : List Int)
    (evs : List HEv) : Except PyErr (FetchResult × Option CMap) :=
  (runHistItems mr type_ids evs cache {}).map fun out => (out.1, out.2.1)

/-! ### The rate limiter (`src/rate_limiter.py`)

Float arithmetic is modelled by exact rationals.  `_refill` is a pure
function of the elapsed monotonic time since the previous refill; `acquire`
is driven by the list of elapsed durations observed at its successive
`_refill` calls (the first entry for the refill on entry, one more per
wake-up from sleep), and returns the token count after consuming a token —
`none` if the given elapsed durations never accumulate a full token. -/

/-- `_refill`: add `elapsed * tokens_per_second` tokens, capped at
`burst_size`. -/
def refill (burst rate elapsed tokens : ℚ) : ℚ :=
  min burst (tokens + elapsed * rate)

/-- `acquire`: refill, then sleep-and-refill while fewer than one token is
available, finally consume one token. -/
def acquireRun (burst rate : ℚ) : List ℚ → ℚ → Option ℚ
  | [], _ => none
  | e :: es, tokens =>
    let t := refill burst rate e tokens
    if t < 1 then acquireRun burst rate es t else some (t - 1)

/-! ### Auxiliary association-list lemmas used by the cache claims -/

theorem alookup_append {α β : Type} [DecidableEq α] (k : α) (xs ys : List (α × β)) :
    alookup k (xs ++ ys) =
      match alookup k xs with
      | some v => some v
      | none => alookup k ys := by
  induction xs with
  | nil => simp [alookup]
  | cons p rest ih =>
    obtain ⟨a, b⟩ := p
    by_cases ha : a = k <;> simp [alookup, ha, ih]

theorem mem_keys_upsert {α β : Type} [DecidableEq α] {x k : α} (v : β) (m : List (α × β)) :
    x ∈ (upsert k v m).map Prod.fst ↔ x = k ∨ x ∈ m.map Prod.fst := by
  induction m with
  | nil => simp [upsert]
  | cons p rest ih =>
    obtain ⟨a, b⟩ := p
    by_cases ha : a = k
    · subst ha
      simp [upsert]
    · simp [upsert, ha, ih]
      tauto

theorem keys_nodup_upsert {α β : Type} [DecidableEq α] (k : α) (v : β)
    {m : List (α × β)} (h : (m.map Prod.fst).Nodup) :
    ((upsert k v m).map Prod.fst).Nodup := by
  induction m with
  | nil => simp [upsert]
  | cons p rest ih =>
    obtain ⟨a, b⟩ := p
    simp only [List.map_cons, List.nodup_cons] at h
    by_cases ha : a = k
    · subst ha
      simp only [upsert, eq_self_iff_true, if_true, List.map_cons, List.nodup_cons]
      exact h
    · simp only [upsert, if_neg ha, List.map_cons, List.nodup_cons]
      refine ⟨?_, ih h.2⟩
      rw [mem_keys_upsert]
      rintro (hh | hh)
      · exact ha hh
      · exact h.1 hh

theorem foldl_upsert_of_none {α β : Type} [DecidableEq α] :
    ∀ (l acc : List (α × β)), (l.map Prod.fst).Nodup →
      (∀ x ∈ l.map Prod.fst, alookup x acc = none) →
      l.foldl (fun m q => upsert q.1 q.2 m) acc = acc ++ l := by
  intro l
  induction l with
  | nil => intro acc _ _; simp
  | cons q rest ih =>
    intro acc hnd hnone
    obtain ⟨k, v⟩ := q
    simp only [List.map_cons, List.nodup_cons] at hnd
    have hk : alookup k acc = none := hnone k (by simp)
    simp only [List.foldl_cons]
    rw [show upsert k v acc = acc ++ [(k, v)] from upsert_of_alookup_none v hk]
    rw [ih (acc ++ [(k, v)]) hnd.2]
    · simp
    · intro x hx
      rw [alookup_append]
      have hxacc : alookup x acc = none := hnone x (by simp [hx])
      have hxk : ¬k = x := fun hh => hnd.1 (hh ▸ hx)
      simp [hxacc, alookup, hxk]

theorem foldl_upsert_isSome {α β : Type} [DecidableEq α] (ps : List (α × β)) :
    ∀ (m : List (α × β)) (k : α), ((alookup k m).isSome ∨ k ∈ ps.map Prod.fst) →
      (alookup k (ps.foldl (fun acc q => upsert q.1 q.2 acc) m)).isSome := by
  induction ps with
  | nil =>
    intro m k h
    simpa using h.resolve_right (by simp)
  | cons q qs ih =>
    intro m k h
    simp only [List.foldl_cons]
    apply ih
    rcases h with h | h
    · exact Or.inl (alookup_upsert_isSome _ h)
    · simp only [List.map_cons, List.mem_cons] at h
      rcases h with h | h
      · subst h
        exact Or.inl (by simp [alookup_upsert_self])
      · exact Or.inr h

theorem foldl_upsert_length_of_isSome {α β : Type} [DecidableEq α] (ps : List (α × β)) :
    ∀ (m : List (α × β)), (∀ q ∈ ps, (alookup q.1 m).isSome) →
      (ps.foldl (fun acc q => upsert q.1 q.2 acc) m).length = m.length := by
  induction ps with
  | nil => intro m _; rfl
  | cons q qs ih =>
    intro m h
    simp only [List.foldl_cons]
    rw [ih _ fun r hr => alookup_upsert_isSome _ (h r (List.mem_cons_of_mem _ hr))]
    exact length_upsert_of_isSome _ (h q (List.mem_cons_self _ _))

/-! ### Claims about the conditional cache -/

/-- Claim C1: for every resource key whose cache entry has an empty records
list, `get_conditional_headers` returns an empty mapping regardless of the
stored validators (the degraded-entry safety valve). -/
theorem c1_empty_records_no_headers (c : CMap) (k : Int) (e : CacheEntry)
    (hget : HistoryCache.get c k = some e) (hdata : e.data = Json.arr []) :
    HistoryCache.get_conditional_headers c k = [] := by
  have hl : alookup k c = some e := hget
  simp [HistoryCache.get_conditional_headers, hl, hdata, truthy]

/-- Concrete instance of `c1_empty_records_no_headers`: an entry for key 34
with both validators present but no records yields no headers. -/
theorem c1_empty_records_no_headers_witness :
    HistoryCache.get_conditional_headers
      [(34, ⟨Json.str "abc", Json.str "Thu", Json.arr []⟩)] 34 = [] :=
  c1_empty_records_no_headers _ 34 ⟨Json.str "abc", Json.str "Thu", Json.arr []⟩ rfl rfl

/-- Counterexample to claim C3 as stated: the entry for key 34 has a
non-empty records list, yet `get_conditional_headers` returns the empty
mapping, because both stored validators are empty strings (a state
`fetch_market_history` creates whenever a 200 response carries neither an
`ETag` nor a `Last-Modified` header). -/
theorem c3_counterexample :
    HistoryCache.get [(34, ⟨Json.str "", Json.str "", Json.arr [Json.obj []]⟩)] 34 =
      some ⟨Json.str "", Json.str "", Json.arr [Json.obj []]⟩ ∧
    HistoryCache.get_conditional_headers
      [(34, ⟨Json.str "", Json.str "", Json.arr [Json.obj []]⟩)] 34 = [] :=
  ⟨rfl, rfl⟩

/-- Claim C3 as amended: for an entry with a non-empty records list at least
one of whose stored validators is truthy, `get_conditional_headers` returns
a non-empty mapping, and everything it contains is one of the two stored
validator headers. -/
theorem c3_nonempty_records_headers (c : CMap) (k : Int) (e : CacheEntry) (l : List Json)
    (hget : HistoryCache.get c k = some e) (hdata : e.data = Json.arr l) (hne : l ≠ [])
    (hval : truthy e.etag = true ∨ truthy e.last_modified = true) :
    HistoryCache.get_conditional_headers c k ≠ [] ∧
      ∀ p ∈ HistoryCache.get_conditional_headers c k,
        p = ("If-None-Match", e.etag) ∨ p = ("If-Modified-Since", e.last_modified) := by
  have hl : alookup k c = some e := hget
  have htr : truthy e.data = true := by
    rw [hdata]
    simp [truthy, hne]
  simp only [HistoryCache.get_conditional_headers, hl, htr, if_true]
  by_cases he : truthy e.etag = true
  · by_cases hm : truthy e.last_modified = true
    · rw [if_pos he, if_pos hm]
      refine ⟨by simp, ?_⟩
      intro p hp
      simp only [List.cons_append, List.nil_append, List.mem_cons,
        List.mem_singleton] at hp
      tauto
    · rw [if_pos he, if_neg hm]
      refine ⟨by simp, ?_⟩
      intro p hp
      simp only [List.append_nil, List.mem_singleton] at hp
      tauto
  · have hm : truthy e.last_modified = true := hval.resolve_left he
    rw [if_neg he, if_pos hm]
    refine ⟨by simp, ?_⟩
    intro p hp
    simp only [List.nil_append, List.mem_singleton] at hp
    tauto

/-- Concrete instance of `c3_nonempty_records_headers` at key 34 with a
truthy `ETag` validator. -/
theorem c3_nonempty_records_headers_witness :
    HistoryCache.get_conditional_headers
        [(34, ⟨Json.str "abc", Json.str "", Json.arr [Json.obj []]⟩)] 34 ≠ [] ∧
      ∀ p ∈ HistoryCache.get_conditional_headers
        [(34, ⟨Json.str "abc", Json.str "", Json.arr [Json.obj []]⟩)] 34,
        p = ("If-None-Match", Json.str "abc") ∨ p = ("If-Modified-Since", Json.str "") :=
  c3_nonempty_records_headers _ 34 ⟨Json.str "abc", Json.str "", Json.arr [Json.obj []]⟩
    [Json.obj []] rfl rfl (by simp) (Or.inl rfl)

/-- Claim C5 (code bug): a cache file holding valid JSON whose top-level
value is not an object — here the JSON array `[]` — reaches `raw.items()`
and raises `AttributeError`, which the `except` tuple of `load` does not
catch; the exception propagates instead of the cache resetting to empty,
contradicting the claim and the docstring "Tolerant of missing or corrupt
files". -/
theorem c5_load_raises_on_json_array :
    HistoryCache.load [] (FileContent.json (Json.arr [])) = ([], some PyErr.attributeError) :=
  rfl

theorem load_obj_eq (entries : CMap) (fields : List (String × Json)) :
    HistoryCache.load entries (FileContent.json (Json.obj fields)) =
      HistoryCache.loadFields entries fields := rfl

/-- Claim C10: `load` into a store `c` (a) is a no-op for a missing file,
(b) never drops an existing key except by the catch-and-clear path (whose
result is the empty store), and (c) loading the same file twice without
intervening writes leaves the entry count unchanged. -/
theorem c10_load_frame (c : CMap) (fc : FileContent) (k : Int)
    (hk : (alookup k c).isSome) :
    HistoryCache.load c FileContent.missing = (c, none) ∧
    ((HistoryCache.load c fc).1 = [] ∨ (alookup k (HistoryCache.load c fc).1).isSome) ∧
    HistoryCache.entry_count (HistoryCache.load (HistoryCache.load c fc).1 fc).1 =
      HistoryCache.entry_count (HistoryCache.load c fc).1 := by
  refine ⟨rfl, ?_, ?_⟩
  · match fc with
    | .missing => exact Or.inr hk
    | .invalid => exact Or.inl rfl
    | .json (.obj fields) =>
      match hg : goodPairs fields with
      | none =>
        rw [show HistoryCache.load c (.json (.obj fields)) = ([], none) from
          loadFields_of_goodPairs_none hg c]
        exact Or.inl rfl
      | some ps =>
        rw [show HistoryCache.load c (.json (.obj fields)) =
            (ps.foldl (fun m q => upsert q.1 q.2 m) c, none) from
          loadFields_of_goodPairs_some hg c]
        exact Or.inr (foldl_upsert_isSome ps c k (Or.inl hk))
    | .json .null => exact Or.inr hk
    | .json (.bool b) => exact Or.inr hk
    | .json (.num n) => exact Or.inr hk
    | .json (.str s) => exact Or.inr hk
    | .json (.arr l) => exact Or.inr hk
  · match fc with
    | .missing => rfl
    | .invalid => rfl
    | .json (.obj fields) =>
      match hg : goodPairs fields with
      | none =>
        rw [load_obj_eq c fields, loadFields_of_goodPairs_none hg c]
        dsimp only
        rw [load_obj_eq, loadFields_of_goodPairs_none hg]
      | some ps =>
        rw [load_obj_eq c fields, loadFields_of_goodPairs_some hg c]
        dsimp only
        rw [load_obj_eq, loadFields_of_goodPairs_some hg]
        dsimp only
        exact foldl_upsert_length_of_isSome ps _ fun q hq =>
          foldl_upsert_isSome ps c q.1 (Or.inr (List.mem_map_of_mem Prod.fst hq))
    | .json .null => rfl
    | .json (.bool b) => rfl
    | .json (.num n) => rfl
    | .json (.str s) => rfl
    | .json (.arr l) => rfl

/-- Concrete instance of `c10_load_frame`: a one-entry store, a file with an
entry for a different key. -/
theorem c10_load_frame_witness :
    HistoryCache.load [(34, ⟨Json.str "a", Json.str "b", Json.arr []⟩)]
        FileContent.missing = ([(34, ⟨Json.str "a", Json.str "b", Json.arr []⟩)], none) ∧
    ((HistoryCache.load [(34, ⟨Json.str "a", Json.str "b", Json.arr []⟩)]
        (FileContent.json (Json.obj [("35", Json.obj [])]))).1 = [] ∨
      (alookup 34 (HistoryCache.load [(34, ⟨Json.str "a", Json.str "b", Json.arr []⟩)]
        (FileContent.json (Json.obj [("35", Json.obj [])]))).1).isSome) ∧
    HistoryCache.entry_count
        (HistoryCache.load
          (HistoryCache.load [(34, ⟨Json.str "a", Json.str "b", Json.arr []⟩)]
            (FileContent.json (Json.obj [("35", Json.obj [])]))).1
          (FileContent.json (Json.obj [("35", Json.obj [])]))).1 =
      HistoryCache.entry_count
        (HistoryCache.load [(34, ⟨Json.str "a", Json.str "b", Json.arr []⟩)]
          (FileContent.json (Json.obj [("35", Json.obj [])]))).1 :=
  c10_load_frame [(34, ⟨Json.str "a", Json.str "b", Json.arr []⟩)]
    (FileContent.json (Json.obj [("35", Json.obj [])])) 34 (by decide)

/-- A cache state built by a sequence of `put` calls, starting empty. -/
def buildCache (puts : List (Int × Json × Json × Json)) : CMap :=
  puts.foldl (fun m p => HistoryCache.put p.1 p.2.1 p.2.2.1 p.2.2.2 m) []

theorem keys_nodup_buildCache (puts : List (Int × Json × Json × Json)) :
    ((buildCache puts).map Prod.fst).Nodup := by
  suffices h : ∀ m : CMap, (m.map Prod.fst).Nodup →
      ((puts.foldl (fun acc p => HistoryCache.put p.1 p.2.1 p.2.2.1 p.2.2.2 acc) m).map
        Prod.fst).Nodup by
    exact h [] (by simp)
  induction puts with
  | nil => intro m hm; simpa using hm
  | cons p rest ih =>
    intro m hm
    simp only [List.foldl_cons]
    exact ih _ (keys_nodup_upsert _ _ hm)

theorem goodPairs_save (c : CMap) :
    goodPairs (c.map fun p => (pyStrI p.1,
      Json.obj [("etag", p.2.etag), ("last_modified", p.2.last_modified),
        ("data", p.2.data)])) = some c := by
  induction c with
  | nil => rfl
  | cons p rest ih =>
    obtain ⟨k, e⟩ := p
    simp only [List.map_cons, goodPairs, pyInt_pyStrI, ih, Option.map_some]
    rw [show HistoryCache.entryOfFields
      [("etag", e.etag), ("last_modified", e.last_modified), ("data", e.data)] = e from rfl]
    rfl

theorem load_save_id (c : CMap) (h : (c.map Prod.fst).Nodup) :
    HistoryCache.load [] (HistoryCache.save c) = (c, none) := by
  show HistoryCache.loadFields [] (c.map fun p => (pyStrI p.1,
    Json.obj [("etag", p.2.etag), ("last_modified", p.2.last_modified),
      ("data", p.2.data)])) = (c, none)
  rw [loadFields_of_goodPairs_some (goodPairs_save c) []]
  rw [foldl_upsert_of_none c [] h (fun x _ => rfl)]
  simp

/-- Claim C6: for every cache state produced by a sequence of `put` calls,
`save()` followed by `load()` into a fresh cache reproduces the cache
exactly — in particular, every key previously `put` maps to an entry with
the same validator tag, validator timestamp and records. -/
theorem c6_save_load_roundtrip (puts : List (Int × Json × Json × Json)) (k : Int)
    (e : CacheEntry) (h : HistoryCache.get (buildCache puts) k = some e) :
    (HistoryCache.load [] (HistoryCache.save (buildCache puts))).1 = buildCache puts ∧
    (HistoryCache.load [] (HistoryCache.save (buildCache puts))).2 = none ∧
    HistoryCache.get (HistoryCache.load [] (HistoryCache.save (buildCache puts))).1 k =
      some e := by
  have hid := load_save_id (buildCache puts) (keys_nodup_buildCache puts)
  rw [hid]
  exact ⟨rfl, rfl, h⟩

/-- Concrete instance of `c6_save_load_roundtrip`: two puts, the second
overwriting the first, then a save/load round trip. -/
theorem c6_save_load_roundtrip_witness :
    (HistoryCache.load [] (HistoryCache.save (buildCache
      [(34, Json.str "a", Json.str "b", Json.arr []),
       (34, Json.str "c", Json.str "d", Json.arr [Json.obj [("volume", Json.num 5)]])]))).1 =
      buildCache
        [(34, Json.str "a", Json.str "b", Json.arr []),
         (34, Json.str "c", Json.str "d", Json.arr [Json.obj [("volume", Json.num 5)]])] ∧
    (HistoryCache.load [] (HistoryCache.save (buildCache
      [(34, Json.str "a", Json.str "b", Json.arr []),
       (34, Json.str "c", Json.str "d", Json.arr [Json.obj [("volume", Json.num 5)]])]))).2 =
      none ∧
    HistoryCache.get (HistoryCache.load [] (HistoryCache.save (buildCache
      [(34, Json.str "a", Json.str "b", Json.arr []),
       (34, Json.str "c", Json.str "d", Json.arr [Json.obj [("volume", Json.num 5)]])]))).1
      34 = some ⟨Json.str "c", Json.str "d", Json.arr [Json.obj [("volume", Json.num 5)]]⟩ :=
  c6_save_load_roundtrip
    [(34, Json.str "a", Json.str "b", Json.arr []),
     (34, Json.str "c", Json.str "d", Json.arr [Json.obj [("volume", Json.num 5)]])]
    34 ⟨Json.str "c", Json.str "d", Json.arr [Json.obj [("volume", Json.num 5)]]⟩ rfl

/-! ### Claim about the rate limiter -/

theorem acquireRun_bounds (burst rate : ℚ) (hb : 0 ≤ burst) (hr : 0 ≤ rate) :
    ∀ (es : List ℚ) (t₀ t' : ℚ), 0 ≤ t₀ → t₀ ≤ burst → (∀ e ∈ es, 0 ≤ e) →
      acquireRun burst rate es t₀ = some t' → 0 ≤ t' ∧ t' ≤ burst := by
  intro es
  induction es with
  | nil => intro t₀ t' _ _ _ hrun; simp [acquireRun] at hrun
  | cons e es ih =>
    intro t₀ t' ht0 ht0b hes hrun
    simp only [acquireRun] at hrun
    have he : 0 ≤ e := hes e (List.mem_cons_self _ _)
    have htl : refill burst rate e t₀ ≤ burst := min_le_left _ _
    have htg : 0 ≤ refill burst rate e t₀ :=
      le_min hb (add_nonneg ht0 (mul_nonneg he hr))
    by_cases hlt : refill burst rate e t₀ < 1
    · rw [if_pos hlt] at hrun
      exact ih _ _ htg htl (fun x hx => hes x (List.mem_cons_of_mem _ hx)) hrun
    · rw [if_neg hlt] at hrun
      simp only [Option.some.injEq] at hrun
      subst hrun
      constructor
      · linarith [not_lt.mp hlt]
      · linarith

/-- Claim C8: the token count stays within `[0, burst_size]`: `_refill`
never raises it above `burst_size` and keeps it non-negative, and `acquire`
decrements by one only after at least one full token is available, so the
count it leaves behind is again within the bounds. -/
theorem c8_rate_limiter_bounds (burst rate e tokens : ℚ) (es : List ℚ) (t₀ t' : ℚ)
    (hb : 0 ≤ burst) (hr : 0 ≤ rate) (he : 0 ≤ e) (htok : 0 ≤ tokens)
    (ht0 : 0 ≤ t₀) (ht0b : t₀ ≤ burst) (hes : ∀ x ∈ es, 0 ≤ x)
    (hrun : acquireRun burst rate es t₀ = some t') :
    refill burst rate e tokens ≤ burst ∧
    0 ≤ refill burst rate e tokens ∧
    0 ≤ t' ∧ t' ≤ burst := by
  refine ⟨min_le_left _ _, le_min hb (add_nonneg htok (mul_nonneg he hr)), ?_⟩
  exact acquireRun_bounds burst rate hb hr es t₀ t' ht0 ht0b hes hrun

/-- Concrete instance of `c8_rate_limiter_bounds`: `burst_size = 10`,
`tokens_per_second = 5`, a refill after 1/2 second, and an `acquire` from
an empty bucket that waits one refill of 1/5 second. -/
theorem c8_rate_limiter_bounds_witness :
    refill 10 5 (1/2) 10 ≤ 10 ∧
    0 ≤ refill 10 5 (1/2) 10 ∧
    0 ≤ (0 : ℚ) ∧ (0 : ℚ) ≤ 10 :=
  c8_rate_limiter_bounds 10 5 (1/2) 10 [1/5] 0 0
    (by norm_num) (by norm_num) (by norm_num) (by norm_num) (by norm_num) (by norm_num)
    (by intro x hx; simp at hx; norm_num [hx])
    (by norm_num [acquireRun, refill])

/-- Does this event take the per-key history loop into its error/timeout
branch (the only branches that can mark a key failed)?  A 304 counts only
when no cache is configured (it then falls into the error path). -/
def isFailEv (cacheOn : Bool) : HEv → Bool
  | .timeout => true
  | .resp status _ _ _ _ _ _ =>
    if status = 200 then false
    else if status = 304 ∧ cacheOn = true then false
    else true

theorem classifyErr_giveUp {mr : Nat} {elr : Option Int} {retries : Nat}
    (h : classifyErr mr elr retries = .giveUp) : mr ≤ retries := by
  cases elr with
  | none =>
    simp only [classifyErr] at h
    split at h
    · cases h
    · omega
  | some v =>
    simp only [classifyErr] at h
    split at h
    · cases h
    · split at h
      · cases h
      · omega

theorem runHistPages_spec (mr : Nat) (item : Int) :
    ∀ (evs : List HEv) (cache : Option CMap) (page maxPages : Nat) (skipCache : Bool)
      (retries : Nat) (res : FetchResult) (out : HistOut),
      runHistPages mr item evs cache page maxPages skipCache retries res = .ok out →
      (out.res.failed_items = res.failed_items ∨
        (out.res.failed_items = res.failed_items ++ [item] ∧ mr ≤ out.retries ∧
          ∃ pre e, evs = pre ++ e :: out.rest ∧ isFailEv cache.isSome e = true)) ∧
      out.cache.isSome = cache.isSome ∧
      ∃ pre, evs = pre ++ out.rest := by
  intro evs
  induction evs with
  | nil =>
    intro cache page maxPages skipCache retries res out hrun
    rw [runHistPages] at hrun
    split at hrun <;>
      (simp only [Except.ok.injEq] at hrun; subst hrun;
       exact ⟨Or.inl rfl, rfl, [], rfl⟩)
  | cons e rest ih =>
    intro cache page maxPages skipCache retries res out hrun
    cases e with
    | timeout =>
      rw [runHistPages] at hrun
      split at hrun
      · simp only [Except.ok.injEq] at hrun
        subst hrun
        exact ⟨Or.inl rfl, rfl, [], rfl⟩
      · split at hrun
        · obtain ⟨h1, h2, pre0, hpre0⟩ := ih _ _ _ _ _ _ _ hrun
          refine ⟨?_, h2, HEv.timeout :: pre0, by rw [hpre0]; rfl⟩
          rcases h1 with h1 | ⟨h1, hret, pre, ev, hseg, hf⟩
          · exact Or.inl h1
          · exact Or.inr ⟨h1, hret, HEv.timeout :: pre, ev, by rw [hseg]; rfl, hf⟩
        · rename_i hnr
          simp only [Except.ok.injEq] at hrun
          subst hrun
          exact ⟨Or.inr ⟨rfl, by exact le_of_not_lt hnr, [], HEv.timeout, rfl, rfl⟩,
            rfl, [HEv.timeout], rfl⟩
    | resp status xp elr elrR etag lastMod body =>
      rw [runHistPages.eq_def] at hrun
      dsimp only at hrun
      split at hrun
      · simp only [Except.ok.injEq] at hrun
        subst hrun
        exact ⟨Or.inl rfl, rfl, [], rfl⟩
      · by_cases h304 : status = 304
        · rw [if_pos h304] at hrun
          cases cache with
          | some c =>
            dsimp only at hrun
            match hd : HistoryCache.has_data c item with
            | .error err => rw [hd] at hrun; dsimp only at hrun; cases hrun
            | .ok true =>
              rw [hd] at hrun
              dsimp only at hrun
              match hg : HistoryCache.get c item with
              | none => rw [hg] at hrun; dsimp only at hrun; cases hrun
              | some entry =>
                rw [hg] at hrun
                dsimp only at hrun
                match hx : pyExtendList entry.data with
                | .error err => rw [hx] at hrun; dsimp only at hrun; cases hrun
                | .ok l =>
                  rw [hx] at hrun
                  dsimp only at hrun
                  simp only [Except.ok.injEq] at hrun
                  subst hrun
                  exact ⟨Or.inl rfl, rfl,
                    [HEv.resp status xp elr elrR etag lastMod body], rfl⟩
            | .ok false =>
              rw [hd] at hrun
              dsimp only at hrun
              obtain ⟨h1, h2, pre0, hpre0⟩ := ih _ _ _ _ _ _ _ hrun
              refine ⟨?_, h2,
                HEv.resp status xp elr elrR etag lastMod body :: pre0,
                by rw [hpre0]; rfl⟩
              rcases h1 with h1 | ⟨h1, hret, pre, ev, hseg, hf⟩
              · exact Or.inl h1
              · exact Or.inr ⟨h1, hret,
                  HEv.resp status xp elr elrR etag lastMod body :: pre, ev,
                  by rw [hseg]; rfl, hf⟩
          | none =>
            dsimp only at hrun
            match hcl : classifyErr mr elr retries with
            | .cont r' =>
              rw [hcl] at hrun
              dsimp only at hrun
              obtain ⟨h1, h2, pre0, hpre0⟩ := ih _ _ _ _ _ _ _ hrun
              refine ⟨?_, h2,
                HEv.resp status xp elr elrR etag lastMod body :: pre0,
                by rw [hpre0]; rfl⟩
              rcases h1 with h1 | ⟨h1, hret, pre, ev, hseg, hf⟩
              · exact Or.inl h1
              · exact Or.inr ⟨h1, hret,
                  HEv.resp status xp elr elrR etag lastMod body :: pre, ev,
                  by rw [hseg]; rfl, hf⟩
            | .giveUp =>
              rw [hcl] at hrun
              dsimp only at hrun
              simp only [Except.ok.injEq] at hrun
              subst hrun
              refine ⟨Or.inr ⟨rfl, classifyErr_giveUp hcl, [],
                HEv.resp status xp elr elrR etag lastMod body, rfl, ?_⟩, rfl,
                [HEv.resp status xp elr elrR etag lastMod body], rfl⟩
              simp [isFailEv, h304]
        · rw [if_neg h304] at hrun
          by_cases h200 : status ≠ 200
          · rw [if_pos h200] at hrun
            match hcl : classifyErr mr elr retries with
            | .cont r' =>
              rw [hcl] at hrun
              dsimp only at hrun
              obtain ⟨h1, h2, pre0, hpre0⟩ := ih _ _ _ _ _ _ _ hrun
              refine ⟨?_, h2,
                HEv.resp status xp elr elrR etag lastMod body :: pre0,
                by rw [hpre0]; rfl⟩
              rcases h1 with h1 | ⟨h1, hret, pre, ev, hseg, hf⟩
              · exact Or.inl h1
              · exact Or.inr ⟨h1, hret,
                  HEv.resp status xp elr elrR etag lastMod body :: pre, ev,
                  by rw [hseg]; rfl, hf⟩
            | .giveUp =>
              rw [hcl] at hrun
              dsimp only at hrun
              simp only [Except.ok.injEq] at hrun
              subst hrun
              refine ⟨Or.inr ⟨rfl, classifyErr_giveUp hcl, [],
                HEv.resp status xp elr elrR etag lastMod body, rfl, ?_⟩, rfl,
                [HEv.resp status xp elr elrR etag lastMod body], rfl⟩
              simp [isFailEv, h304, h200]
          · rw [if_neg h200] at hrun
            match body with
            | none => dsimp only at hrun; cases hrun
            | some data =>
              dsimp only at hrun
              by_cases ht : truthy data = true
              · rw [if_pos ht] at hrun
                match hrl : asRecList data with
                | none =>
                  rw [hrl] at hrun
                  dsimp only at hrun
                  cases hrun
                | some recs =>
                  rw [hrl] at hrun
                  dsimp only at hrun
                  obtain ⟨h1, h2, pre0, hpre0⟩ := ih _ _ _ _ _ _ _ hrun
                  refine ⟨?_, ?_,
                    HEv.resp status xp elr elrR etag lastMod (some data) :: pre0,
                    by rw [hpre0]; rfl⟩
                  · rcases h1 with h1 | ⟨h1, hret, pre, ev, hseg, hf⟩
                    · exact Or.inl h1
                    · refine Or.inr ⟨h1, hret,
                        HEv.resp status xp elr elrR etag lastMod (some data) :: pre,
                        ev, by rw [hseg]; rfl, ?_⟩
                      cases cache with
                      | none => exact hf
                      | some c0 => exact hf
                  · rw [h2]
                    cases cache <;> rfl
              · rw [if_neg ht] at hrun
                obtain ⟨h1, h2, pre0, hpre0⟩ := ih _ _ _ _ _ _ _ hrun
                refine ⟨?_, ?_,
                  HEv.resp status xp elr elrR etag lastMod (some data) :: pre0,
                  by rw [hpre0]; rfl⟩
                · rcases h1 with h1 | ⟨h1, hret, pre, ev, hseg, hf⟩
                  · exact Or.inl h1
                  · refine Or.inr ⟨h1, hret,
                      HEv.resp status xp elr elrR etag lastMod (some data) :: pre,
                      ev, by rw [hseg]; rfl, ?_⟩
                    cases cache with
                    | none => exact hf
                    | some c0 => exact hf
                · rw [h2]
                  cases cache <;> rfl

/-- One input key was marked failed by its own page-loop run: that run,
started the way `runHistItems` starts every key (page 1, one assumed page,
conditional headers enabled, zero retries) on some suffix `evs₁` of the
call's script, ended by appending exactly this key with the local retry
counter at least `max_retries`, and the last event it consumed was an
error or timeout response. -/
def failedByOwnRun (mr : Nat) (cacheOn : Bool) (evs : List HEv) (k : Int) : Prop :=
  ∃ (evs₁ : List HEv) (cache₁ : Option CMap) (res₁ : FetchResult) (out : HistOut),
    runHistPages mr k evs₁ cache₁ 1 1 false 0 res₁ = .ok out ∧
    out.res.failed_items = res₁.failed_items ++ [k] ∧
    mr ≤ out.retries ∧
    (∃ pre e, evs₁ = pre ++ e :: out.rest ∧ isFailEv cache₁.isSome e = true) ∧
    cache₁.isSome = cacheOn ∧
    ∃ pre, evs = pre ++ evs₁

theorem runHistItems_spec (mr : Nat) :
    ∀ (ks : List Int) (evs : List HEv) (cache : Option CMap) (res res' : FetchResult)
      (cache' : Option CMap) (rest' : List HEv),
      runHistItems mr ks evs cache res = .ok (res', cache', rest') →
      ∃ F, res'.failed_items = res.failed_items ++ F ∧ F.Sublist ks ∧
        ∀ k ∈ F, failedByOwnRun mr cache.isSome evs k := by
  intro ks
  induction ks with
  | nil =>
    intro evs cache res res' cache' rest' hrun
    rw [runHistItems] at hrun
    simp only [Except.ok.injEq, Prod.mk.injEq] at hrun
    obtain ⟨h1, _, _⟩ := hrun
    subst h1
    exact ⟨[], by simp, List.nil_sublist _, by simp⟩
  | cons k ks ih =>
    intro evs cache res res' cache' rest' hrun
    rw [runHistItems] at hrun
    match hp : runHistPages mr k evs cache 1 1 false 0 res with
    | .error err =>
      rw [hp] at hrun
      cases hrun
    | .ok out =>
      rw [hp] at hrun
      dsimp only at hrun
      obtain ⟨h1, h2, pre0, hpre0⟩ := runHistPages_spec mr k evs cache 1 1 false 0 res out hp
      obtain ⟨F, hF1, hF2, hF3⟩ := ih _ _ _ _ _ _ hrun
      have hlift : ∀ k' ∈ F, failedByOwnRun mr cache.isSome evs k' := by
        intro k' hk'
        obtain ⟨evs₁, cache₁, res₁, out₁, ha, hb, hc, hd, he, pre1, hpre1⟩ := hF3 k' hk'
        refine ⟨evs₁, cache₁, res₁, out₁, ha, hb, hc, hd, by rw [he, h2], ?_⟩
        exact ⟨pre0 ++ pre1, by rw [hpre0, hpre1, List.append_assoc]⟩
      rcases h1 with h1 | ⟨h1, hret, pre, ev, hseg, hf⟩
      · exact ⟨F, by rw [hF1, h1], hF2.trans (List.sublist_cons_self _ _), hlift⟩
      · refine ⟨k :: F, ?_, hF2.cons₂ k, ?_⟩
        · rw [hF1, h1, List.append_assoc]
          rfl
        · intro k' hk'
          rcases List.mem_cons.mp hk' with hk' | hk'
          · subst hk'
            exact ⟨evs, cache, res, out, hp, h1, hret, ⟨pre, ev, hseg, hf⟩, rfl,
              [], rfl⟩
          · exact hlift k' hk'

/-- Formalization of claim C2 exactly as stated: after a
`fetch_market_history` call, `failed_items` contains exactly those input
keys for which no record (stamped with that key) was appended to `data`. -/
def claimC2Stated : Prop :=
  ∀ (mr : Nat) (cache : Option CMap) (ks : List Int) (evs : List HEv)
    (res : FetchResult) (cache' : Option CMap),
    fetch_market_history mr cache ks evs = .ok (res, cache') →
    ∀ k ∈ ks, (k ∈ res.failed_items ↔
      ¬ ∃ r ∈ res.data, ∃ fs, r = Json.obj fs ∧ alookup "type_id" fs = some (Json.num k))

/-- Counterexample to claim C2 as stated: fetching key 34 against a single
200 response with the empty JSON array body appends no record, yet 34 is
not put into `failed_items` (the code only marks keys failed on retry
exhaustion, not on empty success). -/
theorem c2_counterexample : ¬ claimC2Stated := by
  intro h
  have h34 := h 3 none [34] [HEv.resp 200 none none none "" "" (some (Json.arr []))]
    { data := [], pages_fetched := 1, error_count := 0, total_retries := 0,
      failed_items := [], cache_hits := 0 } none rfl 34 (by simp)
  simp at h34

/-- Claim C2 as amended: `failed_items` is a subsequence of the input key
list (only input keys, each at most once, in input order), and every key in
it was marked failed by its own page-loop run — a run that ended by
appending exactly that key, with the local retry counter at least
`max_retries`, whose last consumed event was an error or timeout response;
it is not exactly the set of keys with no appended record
(`c2_counterexample`). -/
theorem c2_failed_items_spec (mr : Nat) (cache : Option CMap) (ks : List Int)
    (evs : List HEv) (res : FetchResult) (cache' : Option CMap)
    (hrun : fetch_market_history mr cache ks evs = .ok (res, cache')) :
    res.failed_items.Sublist ks ∧
      ∀ k ∈ res.failed_items, failedByOwnRun mr cache.isSome evs k := by
  unfold fetch_market_history at hrun
  match hitems : runHistItems mr ks evs cache {} with
  | .error err =>
    rw [hitems] at hrun
    cases hrun
  | .ok (r, c, rest) =>
    rw [hitems] at hrun
    simp only [Except.map, Except.ok.injEq, Prod.mk.injEq] at hrun
    obtain ⟨h1, h2⟩ := hrun
    subst h1
    obtain ⟨F, hF1, hF2, hF3⟩ := runHistItems_spec mr ks evs cache {} r c rest hitems
    simp only [List.nil_append] at hF1
    subst hF1
    exact ⟨hF2, hF3⟩

/-- Concrete instance of `c2_failed_items_spec`: key 35 with a single 500
response and no retries allowed ends up failed. -/
theorem c2_failed_items_spec_witness :
    (FetchResult.failed_items
      { data := [], pages_fetched := 0, error_count := 1, total_retries := 0,
        failed_items := [35], cache_hits := 0 }).Sublist [35] ∧
      ∀ k ∈ FetchResult.failed_items
        { data := [], pages_fetched := 0, error_count := 1, total_retries := 0,
          failed_items := [35], cache_hits := 0 },
        failedByOwnRun 0 (Option.isSome (none : Option CMap))
          [HEv.resp 500 none none none "" "" none] k :=
  c2_failed_items_spec 0 none [35] [HEv.resp 500 none none none "" "" none]
    { data := [], pages_fetched := 0, error_count := 1, total_retries := 0,
      failed_items := [35], cache_hits := 0 } none rfl

/-- The invariant claim C9 maintains: every record list stored in the cache
consists of JSON objects carrying a `type_id` field equal to the entry's
key. -/
def CacheTyped (c : CMap) : Prop :=
  ∀ k e, alookup k c = some e → ∀ l, e.data = Json.arr l →
    ∀ r ∈ l, ∃ fs, r = Json.obj fs ∧ alookup "type_id" fs = some (Json.num k)

theorem stampAll_typed (item : Int) (recs : List (List (String × Json))) :
    ∀ r ∈ stampAll item recs,
      ∃ fs, r = Json.obj fs ∧ alookup "type_id" fs = some (Json.num item) := by
  intro r hr
  simp only [stampAll, List.mem_map] at hr
  obtain ⟨fs0, _, rfl⟩ := hr
  exact ⟨_, rfl, alookup_upsert_self _ _ _⟩

theorem cacheTyped_put (c : CMap) (hc : CacheTyped c) (item : Int) (etag lm : String)
    (recs : List (List (String × Json))) :
    CacheTyped (HistoryCache.put item (Json.str etag) (Json.str lm)
      (Json.arr (stampAll item recs)) c) := by
  intro k e hk l hl r hr
  by_cases hki : k = item
  · subst hki
    rw [HistoryCache.put, alookup_upsert_self] at hk
    injection hk with hk
    subst hk
    simp only at hl
    injection hl with hl
    subst hl
    exact stampAll_typed k recs r hr
  · rw [HistoryCache.put, alookup_upsert_ne _ _ hki] at hk
    exact hc k e hk l hl r hr

theorem runHistPages_cacheTyped (mr : Nat) (item : Int) :
    ∀ (evs : List HEv) (cache : Option CMap) (page maxPages : Nat) (skipCache : Bool)
      (retries : Nat) (res : FetchResult) (out : HistOut),
      runHistPages mr item evs cache page maxPages skipCache retries res = .ok out →
      (∀ c, cache = some c → CacheTyped c) →
      ∀ c', out.cache = some c' → CacheTyped c' := by
  intro evs
  induction evs with
  | nil =>
    intro cache page maxPages skipCache retries res out hrun hc
    rw [runHistPages] at hrun
    split at hrun <;>
      (simp only [Except.ok.injEq] at hrun; subst hrun; exact hc)
  | cons e rest ih =>
    intro cache page maxPages skipCache retries res out hrun hc
    cases e with
    | timeout =>
      rw [runHistPages] at hrun
      split at hrun
      · simp only [Except.ok.injEq] at hrun
        subst hrun
        exact hc
      · split at hrun
        · exact ih _ _ _ _ _ _ _ hrun hc
        · simp only [Except.ok.injEq] at hrun
          subst hrun
          exact hc
    | resp status xp elr elrR etag lastMod body =>
      rw [runHistPages.eq_def] at hrun
      dsimp only at hrun
      split at hrun
      · simp only [Except.ok.injEq] at hrun
        subst hrun
        exact hc
      · by_cases h304 : status = 304
        · rw [if_pos h304] at hrun
          cases cache with
          | some c =>
            dsimp only at hrun
            match hd : HistoryCache.has_data c item with
            | .error err => rw [hd] at hrun; dsimp only at hrun; cases hrun
            | .ok true =>
              rw [hd] at hrun
              dsimp only at hrun
              match hg : HistoryCache.get c item with
              | none => rw [hg] at hrun; dsimp only at hrun; cases hrun
              | some entry =>
                rw [hg] at hrun
                dsimp only at hrun
                match hx : pyExtendList entry.data with
                | .error err => rw [hx] at hrun; dsimp only at hrun; cases hrun
                | .ok l =>
                  rw [hx] at hrun
                  dsimp only at hrun
                  simp only [Except.ok.injEq] at hrun
                  subst hrun
                  exact hc
            | .ok false =>
              rw [hd] at hrun
              dsimp only at hrun
              exact ih _ _ _ _ _ _ _ hrun hc
          | none =>
            dsimp only at hrun
            match hcl : classifyErr mr elr retries with
            | .cont r' =>
              rw [hcl] at hrun
              dsimp only at hrun
              exact ih _ _ _ _ _ _ _ hrun hc
            | .giveUp =>
              rw [hcl] at hrun
              dsimp only at hrun
              simp only [Except.ok.injEq] at hrun
              subst hrun
              exact hc
        · rw [if_neg h304] at hrun
          by_cases h200 : status ≠ 200
          · rw [if_pos h200] at hrun
            match hcl : classifyErr mr elr retries with
            | .cont r' =>
              rw [hcl] at hrun
              dsimp only at hrun
              exact ih _ _ _ _ _ _ _ hrun hc
            | .giveUp =>
              rw [hcl] at hrun
              dsimp only at hrun
              simp only [Except.ok.injEq] at hrun
              subst hrun
              exact hc
          · rw [if_neg h200] at hrun
            match body with
            | none => dsimp only at hrun; cases hrun
            | some data =>
              dsimp only at hrun
              by_cases ht : truthy data = true
              · rw [if_pos ht] at hrun
                match hrl : asRecList data with
                | none => rw [hrl] at hrun; dsimp only at hrun; cases hrun
                | some recs =>
                  rw [hrl] at hrun
                  dsimp only at hrun
                  cases cache with
                  | none =>
                    refine ih _ _ _ _ _ _ _ hrun ?_
                    intro c hcEq
                    cases hcEq
                  | some c0 =>
                    refine ih _ _ _ _ _ _ _ hrun ?_
                    intro c hcEq
                    injection hcEq with hcEq
                    subst hcEq
                    exact cacheTyped_put c0 (hc c0 rfl) item etag lastMod recs
              · rw [if_neg ht] at hrun
                cases cache with
                | none =>
                  refine ih _ _ _ _ _ _ _ hrun ?_
                  intro c hcEq
                  cases hcEq
                | some c0 =>
                  refine ih _ _ _ _ _ _ _ hrun ?_
                  intro c hcEq
                  injection hcEq with hcEq
                  subst hcEq
                  exact cacheTyped_put c0 (hc c0 rfl) item etag lastMod []

theorem runHistItems_cacheTyped (mr : Nat) :
    ∀ (ks : List Int) (evs : List HEv) (cache : Option CMap) (res res' : FetchResult)
      (cache' : Option CMap) (rest : List HEv),
      runHistItems mr ks evs cache res = .ok (res', cache', rest) →
      (∀ c, cache = some c → CacheTyped c) →
      ∀ c', cache' = some c' → CacheTyped c' := by
  intro ks
  induction ks with
  | nil =>
    intro evs cache res res' cache' rest hrun hc
    rw [runHistItems] at hrun
    simp only [Except.ok.injEq, Prod.mk.injEq] at hrun
    obtain ⟨_, h2, _⟩ := hrun
    subst h2
    exact hc
  | cons k ks ih =>
    intro evs cache res res' cache' rest hrun hc
    rw [runHistItems] at hrun
    match hp : runHistPages mr k evs cache 1 1 false 0 res with
    | .error err => rw [hp] at hrun; cases hrun
    | .ok out =>
      rw [hp] at hrun
      dsimp only at hrun
      exact ih _ _ _ _ _ _ hrun (runHistPages_cacheTyped mr k _ _ _ _ _ _ _ _ hp hc)

theorem asRecList_map_obj (recs : List (List (String × Json))) :
    asRecList (Json.arr (recs.map Json.obj)) = some recs := by
  simp only [asRecList]
  induction recs with
  | nil => rfl
  | cons fs rest ih =>
    simp only [List.map_cons, asRecListGo, ih]
    rfl

/-- What the 200 path stores and returns for one key with a single-page
response whose body decodes to a list of record objects: the cache entry
becomes the response validators plus the records, each copied and extended
with `type_id = item`, and the same stamped records are appended to the
result's data. -/
theorem runHistPages_store_200 (mr : Nat) (item : Int) (etag lm : String)
    (recs : List (List (String × Json))) (c : CMap) (retries : Nat) (res : FetchResult) :
    runHistPages mr item
        [HEv.resp 200 none none none etag lm (some (Json.arr (recs.map Json.obj)))]
        (some c) 1 1 false retries res =
      .ok ⟨{ res with data := res.data ++ stampAll item recs,
                      pages_fetched := res.pages_fetched + 1 },
           some (HistoryCache.put item (Json.str etag) (Json.str lm)
             (Json.arr (stampAll item recs)) c), 0, []⟩ := by
  rw [runHistPages.eq_def]
  dsimp only
  rw [if_neg (by omega : ¬ (1 : Nat) < 1)]
  rw [if_neg (by decide : ¬ (200 : Nat) = 304)]
  rw [if_neg (by decide : ¬ (200 : Nat) ≠ 200)]
  match recs with
  | [] =>
    rw [if_neg (by decide : ¬ truthy (Json.arr ([].map Json.obj)) = true)]
    rw [runHistPages.eq_def]
    dsimp only
    rw [if_pos (by decide : (none : Option Nat).getD 1 < 1 + 1)]
    simp [stampAll]
  | fs :: rest =>
    rw [if_pos (by simp [truthy] : truthy (Json.arr ((fs :: rest).map Json.obj)) = true)]
    rw [asRecList_map_obj]
    dsimp only
    rw [runHistPages.eq_def]
    dsimp only
    rw [if_pos (by decide : (none : Option Nat).getD 1 < 1 + 1)]

/-- Claim C9: (a) a 200 response for key `item` stores, as the cache entry's
records, exactly the decoded records each copied and extended with
`type_id = item` (and appends the same stamped records to the result); and
(b) the whole `fetch_market_history` run preserves the invariant that every
cached record is an object whose `type_id` equals its entry's key — hence
records later adopted from the cache on a 304 already carry the key. -/
theorem c9_history_cache_stamped (mr : Nat) (item : Int) (etag lm : String)
    (recs : List (List (String × Json))) (c : CMap) (retries : Nat) (res : FetchResult)
    (cache : CMap) (ks : List Int) (evs : List HEv) (res' : FetchResult) (cFinal : CMap)
    (hrun : fetch_market_history mr (some cache) ks evs = .ok (res', some cFinal))
    (hct : CacheTyped cache) :
    runHistPages mr item
        [HEv.resp 200 none none none etag lm (some (Json.arr (recs.map Json.obj)))]
        (some c) 1 1 false retries res =
      .ok ⟨{ res with data := res.data ++ stampAll item recs,
                      pages_fetched := res.pages_fetched + 1 },
           some (HistoryCache.put item (Json.str etag) (Json.str lm)
             (Json.arr (stampAll item recs)) c), 0, []⟩ ∧
    CacheTyped cFinal := by
  refine ⟨runHistPages_store_200 mr item etag lm recs c retries res, ?_⟩
  unfold fetch_market_history at hrun
  match hitems : runHistItems mr ks evs (some cache) {} with
  | .error err => rw [hitems] at hrun; cases hrun
  | .ok (r, cc, rest) =>
    rw [hitems] at hrun
    simp only [Except.map, Except.ok.injEq, Prod.mk.injEq] at hrun
    obtain ⟨_, h2⟩ := hrun
    exact runHistItems_cacheTyped mr ks evs (some cache) {} r cc rest hitems
      (fun c0 hc0 => by injection hc0 with hc0; subst hc0; exact hct)
      cFinal h2

/-- Concrete instance of `c9_history_cache_stamped`: one key, one record,
fresh empty cache. -/
theorem c9_history_cache_stamped_witness :
    runHistPages 3 34
        [HEv.resp 200 none none none "abc" "Thu"
          (some (Json.arr ([[("average", Json.num 9)]].map Json.obj)))]
        (some ([] : CMap)) 1 1 false 0 {} =
      .ok ⟨⟨[Json.obj [("average", Json.num 9), ("type_id", Json.num 34)]], 1, 0, 0, [], 0⟩,
           some [(34, ⟨Json.str "abc", Json.str "Thu",
             Json.arr [Json.obj [("average", Json.num 9), ("type_id", Json.num 34)]]⟩)],
           0, []⟩ ∧
    CacheTyped [(34, ⟨Json.str "abc", Json.str "Thu",
      Json.arr [Json.obj [("average", Json.num 9), ("type_id", Json.num 34)]]⟩)] :=
  c9_history_cache_stamped 3 34 "abc" "Thu" [[("average", Json.num 9)]] [] 0 {} []
    [34]
    [HEv.resp 200 none none none "abc" "Thu"
      (some (Json.arr [Json.obj [("average", Json.num 9)]]))]
    { data := [Json.obj [("average", Json.num 9), ("type_id", Json.num 34)]],
      pages_fetched := 1, error_count := 0, total_retries := 0,
      failed_items := [], cache_hits := 0 }
    [(34, ⟨Json.str "abc", Json.str "Thu",
      Json.arr [Json.obj [("average", Json.num 9), ("type_id", Json.num 34)]]⟩)]
    rfl
    (by intro k e hk; exact Option.noConfusion hk)

/-! ### Claims about the fetch loops' error handling and error budget -/

/-- Counterexample to claim C4 as stated: in `fetch_market_history`, a 200
response whose body fails to decode as JSON makes the whole fetch call
raise (`response.json()` at line 288 of `src/esi_client.py` is outside any
`ValueError` handler), instead of counting an error and continuing. -/
theorem c4_counterexample :
    fetch_market_history 3 none [34] [HEv.resp 200 none none none "" "" none] =
      .error PyErr.valueError := rfl

/-- Claim C4 as amended: (a) in `fetch_market_orders`, a decode failure on a
200 response with budget remaining increments the error counter, consumes no
retry slot, re-requests the same page (the page counter does not advance),
and no exception propagates; (b) in `fetch_market_history`, a decode failure
on a 200 response propagates a `ValueError` out of the fetch call. -/
theorem c4_decode_error_behavior (mr : Nat) (e : OrdEv) (rest : List OrdEv)
    (page totalPages retries : Nat) (res : FetchResult)
    (item : Int) (cache : Option CMap) (evs2 : List HEv) (page2 maxP2 : Nat)
    (skip2 : Bool) (retries2 : Nat) (res2 : FetchResult)
    (xp : Option Nat) (elr elrR : Option Int) (etag lm : String)
    (hpg : page ≤ totalPages) (hz : e.elr.getD 0 ≠ 0) (hst : e.status = 200)
    (hb : e.body = none) (hpg2 : page2 ≤ maxP2) :
    runOrders mr (e :: rest) page totalPages retries res =
      runOrders mr rest page (e.xPages.getD totalPages) 0
        { res with error_count := res.error_count + 1,
                   total_retries := res.total_retries + retries } ∧
    runHistPages mr item (HEv.resp 200 xp elr elrR etag lm none :: evs2) cache
      page2 maxP2 skip2 retries2 res2 = .error PyErr.valueError := by
  constructor
  · rw [runOrders]
    rw [if_neg (by omega : ¬ totalPages < page)]
    dsimp only
    rw [if_neg hz, if_neg (by rw [hst]; decide : ¬ e.status ≠ 200), hb]
  · rw [runHistPages.eq_def]
    dsimp only
    rw [if_neg (by omega : ¬ maxP2 < page2)]
    rw [if_neg (by decide : ¬ (200 : Nat) = 304)]
    rw [if_neg (by decide : ¬ (200 : Nat) ≠ 200)]

/-- Concrete instance of `c4_decode_error_behavior`. -/
theorem c4_decode_error_behavior_witness :
    runOrders 3 [⟨200, none, some 50, none⟩] 1 1 0 {} =
      runOrders 3 [] 1 1 0 ⟨[], 0, 1, 0, [], 0⟩ ∧
    runHistPages 3 34 [HEv.resp 200 none none none "" "" none] none 1 1 false 0 {} =
      .error PyErr.valueError :=
  c4_decode_error_behavior 3 ⟨200, none, some 50, none⟩ [] 1 1 0 {} 34 none [] 1 1
    false 0 {} none none none "" "" (by omega) (by decide) rfl rfl (by omega)

/-- Claim C7: during a paginated bulk fetch with pages remaining, (a) a
response whose remaining error budget (as parsed, absent counting as zero)
is zero stops the fetch at once — the rest of the script is untouched and
the result unchanged; (b) a successful response whose remaining budget is
positive but below the low-water mark 10 only warns: the fetch proceeds to
the next page. -/
theorem c7_error_budget_stop_and_continue (mr : Nat) (e : OrdEv) (rest : List OrdEv)
    (page totalPages retries : Nat) (res : FetchResult) (r : Int) (l : List Json)
    (hpg : page ≤ totalPages) :
    (e.elr.getD 0 = 0 →
      runOrders mr (e :: rest) page totalPages retries res = .ok (res, rest)) ∧
    (e.elr = some r → 0 < r → r < 10 → e.status = 200 →
      e.body = some (Json.arr l) → l ≠ [] →
      runOrders mr (e :: rest) page totalPages retries res =
        runOrders mr rest (page + 1) (e.xPages.getD totalPages) 0
          { res with data := res.data ++ l,
                     pages_fetched := res.pages_fetched + 1,
                     total_retries := res.total_retries + retries }) := by
  constructor
  · intro h0
    rw [runOrders]
    rw [if_neg (by omega : ¬ totalPages < page)]
    dsimp only
    rw [if_pos h0]
  · intro helr hr0 _ hst hb hl
    rw [runOrders]
    rw [if_neg (by omega : ¬ totalPages < page)]
    dsimp only
    rw [if_neg (by rw [helr]; simpa using by omega : ¬ e.elr.getD 0 = 0)]
    rw [if_neg (by rw [hst]; decide : ¬ e.status ≠ 200), hb]
    dsimp only
    rw [if_pos (by simpa [truthy] using hl : truthy (Json.arr l) = true)]
    dsimp only [pyExtendList]

/-- Concrete instance of `c7_error_budget_stop_and_continue`: a response
reporting 5 remaining errors (below the low-water mark) on a 200 with one
order, with one more page available. -/
theorem c7_error_budget_stop_and_continue_witness :
    ((⟨200, some 2, some 5, some (Json.arr [Json.obj []])⟩ : OrdEv).elr.getD 0 = 0 →
      runOrders 3 [⟨200, some 2, some 5, some (Json.arr [Json.obj []])⟩] 1 1 0 {} =
        .ok ({}, [])) ∧
    ((⟨200, some 2, some 5, some (Json.arr [Json.obj []])⟩ : OrdEv).elr = some 5 →
      (0 : Int) < 5 → (5 : Int) < 10 →
      (⟨200, some 2, some 5, some (Json.arr [Json.obj []])⟩ : OrdEv).status = 200 →
      (⟨200, some 2, some 5, some (Json.arr [Json.obj []])⟩ : OrdEv).body =
        some (Json.arr [Json.obj []]) →
      ([Json.obj []] : List Json) ≠ [] →
      runOrders 3 [⟨200, some 2, some 5, some (Json.arr [Json.obj []])⟩] 1 1 0 {} =
        runOrders 3 [] 2 2 0 ⟨[Json.obj []], 1, 0, 0, [], 0⟩) :=
  c7_error_budget_stop_and_continue 3 ⟨200, some 2, some 5, some (Json.arr [Json.obj []])⟩
    [] 1 1 0 {} 5 [Json.obj []] (by omega)
